import Mathlib

/-!
Verification of the local-first-auth core against its specification.

We shallowly embed the team graph (a content-addressed DAG of signed
team-management actions), the seniority comparator, graph merge, the
membership resolver, `getParentMap`, and the `Team` facade operations
(member/role/device/invitation management), and prove or refute the
spec's claims about them.

Hashes are modelled as natural numbers (the source uses base58 strings;
any type with decidable equality and a linear order is a faithful model
of content hashes).  JavaScript `Map`/object collections are modelled as
association lists; where the source relies on a canonical map (graph
link stores) we keep the list strictly sorted by key.
-/

/-- The action types carried by team links (src/team/types.ts `TeamAction`;
only the variants exercised by the claims are modelled). -/
inductive TeamActionBody where
  /-- Root link payload: team name; the root member is the link's author. -/
  | root (teamName : String)
  | addMember (memberUserId : String) (roles : List String)
  | removeMember (userId : String)
  | addMemberRole (userId : String) (roleName : String)
  | removeMemberRole (userId : String) (roleName : String)
deriving DecidableEq, Repr

/-- A decrypted link body: author, action and predecessor hashes
(src: `Link.body` with `userId`, `type`/`payload`, `prev`). -/
structure LinkBody where
  userId : String
  action : TeamActionBody
  prev : List Nat
deriving DecidableEq, Repr

/-- A team graph: root hash, current head (frontier) and the link store
(src: `Graph` = `{root, head, links}`); `links` is kept sorted by hash,
modelling the content-addressed `Map<Hash, Link>`. -/
structure TeamGraph where
  root : Nat
  head : List Nat
  links : List (Nat × LinkBody)
deriving DecidableEq, Repr

/-- Look a link up by hash (src: `chain.links[hash]`). -/
def lookupLink (g : TeamGraph) (h : Nat) : Option LinkBody :=
  match g.links.find? (fun p => p.1 = h) with
  | some p => some p.2
  | none => none

/-- Fuel-bounded reachability: `reach g fuel a b` holds when `a` is a strict
ancestor of `b` (there is a `prev`-path from `b` back to `a`).  Modelled from
the spec: `isPredecessor(g, a, b)` is "standard DAG reachability" (§4.1); the
crdx implementation is not under src/.  Fuel equal to the number of links
suffices on acyclic graphs. -/
def reach (g : TeamGraph) : Nat → Nat → Nat → Bool
  | 0, _, _ => false
  | fuel + 1, a, b =>
    match lookupLink g b with
    | none => false
    | some l => l.prev.any fun p => p = a || reach g fuel a p

/-- `isPredecessor g a b`: link `a` comes strictly before link `b` in the DAG. -/
def isPredecessor (g : TeamGraph) (a b : Nat) : Bool :=
  reach g g.links.length a b

/-- Did this user author the root link? (src/team/bySeniority.ts `isFounder`). -/
def isFounder (g : TeamGraph) (userId : String) : Bool :=
  match lookupLink g g.root with
  | some rootLink => rootLink.userId = userId
  | none => false

/-- Is this link the ADD_MEMBER link for the given user?
(src/team/bySeniority.ts `addedMember`). -/
def addedMember (userId : String) (l : LinkBody) : Bool :=
  match l.action with
  | .addMember memberUserId _ => memberUserId = userId
  | _ => false

/-- First link in the store that added the given member
(src/team/bySeniority.ts `linkThatAddedMember`); `none` models the
`assert(result, ...)` failure when no such link exists. -/
def linkThatAddedMember (g : TeamGraph) (userId : String) : Option Nat :=
  match g.links.find? (fun p => addedMember userId p.2) with
  | some p => some p.1
  | none => none

/-- The seniority comparator (src/team/bySeniority.ts `bySeniority`).
Returns `some (-1)` when `a` sorts first, `some 1` when `b` sorts first,
and `none` when the assertion on a missing ADD_MEMBER link fires.
Note the source contains `TODO: if both users were added concurrently,
need to have a default sort` and simply returns `1` in that case. -/
def bySeniority (g : TeamGraph) (a b : String) : Option Int :=
  if isFounder g a then some (-1)
  else if isFounder g b then some 1
  else
    match linkThatAddedMember g a, linkThatAddedMember g b with
    | some addedA, some addedB =>
      if isPredecessor g addedA addedB then some (-1) else some 1
    | _, _ => none

/-! A concrete graph with two concurrent ADD_MEMBER links: alice founds the
team (hash 0) and adds bob (hash 1) and carol (hash 2) in parallel branches,
so links 1 and 2 are concurrent. -/

/-- Concrete graph: root 0 by alice; ADD_MEMBER bob (hash 1) and ADD_MEMBER
carol (hash 2) both have `prev = [0]`, hence are concurrent. -/
def forkGraph : TeamGraph where
  root := 0
  head := [1, 2]
  links :=
    [ (0, ⟨"alice", .root "t", []⟩)
    , (1, ⟨"alice", .addMember "bob" [], [0]⟩)
    , (2, ⟨"alice", .addMember "carol" [], [0]⟩) ]

/-! ### Graph merge (CRDT)

Modelled from the spec: the crdx `merge` implementation is not under src/
(only `Team.merge`, which delegates to the store, is).  Spec §4.1:
"merge(a, b) → c: union of links; head = hashes with no child across the
union.  Idempotent; commutative; associative.  Duplicate hashes are
discarded (content-addressed equality)."  The link store is a canonical
(sorted-by-hash) association list. -/

/-- Strictly ascending hash keys: the canonical-form invariant of the link
store map. -/
def keysSorted (links : List (Nat × LinkBody)) : Prop :=
  links.Pairwise fun p q => p.1 < q.1

instance decKeysSorted (links : List (Nat × LinkBody)) : Decidable (keysSorted links) :=
  inferInstanceAs
    (Decidable (List.Pairwise (fun p q : Nat × LinkBody => p.1 < q.1) links))

/-- Does any link in the store name `h` among its predecessors? -/
def hasChild (links : List (Nat × LinkBody)) (h : Nat) : Bool :=
  links.any fun q => q.2.prev.contains h

/-- Head of a link store: the hashes with no child across it (spec §4.1). -/
def computeHead (links : List (Nat × LinkBody)) : List Nat :=
  (links.map Prod.fst).filter fun h => !hasChild links h

/-- A well-formed graph: canonical link store, and `head` is exactly the
childless frontier (spec §3 invariant (c)). -/
def wfGraph (g : TeamGraph) : Prop :=
  keysSorted g.links ∧ g.head = computeHead g.links

/-- Insert one link into a canonical store; an existing binding for the same
hash is kept (duplicate hashes are discarded: content-addressed equality). -/
def insertLink (p : Nat × LinkBody) : List (Nat × LinkBody) → List (Nat × LinkBody)
  | [] => [p]
  | q :: qs =>
    if p.1 < q.1 then p :: q :: qs
    else if q.1 < p.1 then q :: insertLink p qs
    else q :: qs

/-- Union of two canonical link stores; on duplicate hashes the left store's
link is kept. -/
def unionSorted (xs ys : List (Nat × LinkBody)) : List (Nat × LinkBody) :=
  ys.foldl (fun acc q => insertLink q acc) xs

/-- Merge of two graphs: union of links, head recomputed across the union. -/
def mergeGraphs (a b : TeamGraph) : TeamGraph :=
  let u := unionSorted a.links b.links
  { root := a.root, head := computeHead u, links := u }

/-- Content-addressed agreement: two stores never bind the same hash to
different links (spec: duplicate hashes are content-addressed equal). -/
def agreeLinks (a b : TeamGraph) : Prop :=
  ∀ p ∈ a.links, ∀ q ∈ b.links, p.1 = q.1 → p.2 = q.2

instance decAgreeLinks (a b : TeamGraph) : Decidable (agreeLinks a b) :=
  inferInstanceAs (Decidable (∀ p ∈ a.links, ∀ q ∈ b.links, p.1 = q.1 → p.2 = q.2))

/-- Left-biased choice on options (JS `??`); used to state the merged-lookup
law. -/
def optOr (a b : Option LinkBody) : Option LinkBody :=
  match a with
  | some x => some x
  | none => b

/-- Link lookup on a raw store list (`lookupLink` on the graph's list). -/
def findLink (links : List (Nat × LinkBody)) (h : Nat) : Option LinkBody :=
  match links.find? (fun p => p.1 = h) with
  | some p => some p.2
  | none => none

/-! ### Membership resolver

Modelled from the spec: `membershipResolver.ts` is not under src/ (only the
demo's cypress test exercising it is).  Spec §4.3: rule 1 (mutual
remove/demote: the more senior admin's action wins), rule 2 (invalidated
authority: any action whose author lost admin or membership in the winning
concurrent branch is filtered out recursively), seniority per `bySeniority`.
Invalid links are computed as an iterated fixpoint; the reducer then folds
the surviving links in hash order (ascending hashes are a topological order
for the scenario graphs, whose hashes increase along edges). -/

/-- The admin role name (role/constants: `ADMIN = 'admin'`). -/
def ADMIN : String := "admin"

/-- Does this link demote the given user from admin or remove them from the
team? (the actions covered by resolver rules 1 and 2). -/
def demotesUser (l : LinkBody) (u : String) : Bool :=
  match l.action with
  | .removeMemberRole target r => target = u && r = ADMIN
  | .removeMember target => target = u
  | _ => false

/-- Does this link grant the given user the admin role? -/
def grantsAdmin (l : LinkBody) (u : String) : Bool :=
  match l.action with
  | .addMemberRole target r => target = u && r = ADMIN
  | .addMember m roles => m = u && roles.contains ADMIN
  | _ => false

/-- Two links are concurrent when neither is a predecessor of the other. -/
def concurrent (g : TeamGraph) (h1 h2 : Nat) : Bool :=
  h1 ≠ h2 && !isPredecessor g h1 h2 && !isPredecessor g h2 h1

/-- Author of the root link (the team founder). -/
def rootAuthor (g : TeamGraph) : String :=
  match lookupLink g g.root with
  | some l => l.userId
  | none => ""

/-- `a` is strictly senior to `b` per the seniority comparator. -/
def seniorB (g : TeamGraph) (a b : String) : Bool :=
  bySeniority g a b == some (-1)

/-- One round of invalidation, given the set `I` of links already found
invalid.  A link (by a non-founder) is invalid when a surviving concurrent
link demotes or removes its author — except in a mutual conflict that the
author wins by seniority (rule 1) — or when no surviving predecessor link
grants its author the admin role (rule 2's recursive cascade: a promotion by
a concurrently-demoted admin is void, so the promoted party's admin actions
are also void). -/
def invalidStep (g : TeamGraph) (I : List Nat) (h : Nat) : Bool :=
  match lookupLink g h with
  | none => false
  | some l =>
    if l.userId = rootAuthor g then false
    else
      (g.links.any fun p =>
        !I.contains p.1 && concurrent g p.1 h && demotesUser p.2 l.userId &&
          !(demotesUser l p.2.userId && seniorB g l.userId p.2.userId))
      ||
      !(g.links.any fun p =>
        !I.contains p.1 && grantsAdmin p.2 l.userId && isPredecessor g p.1 h)

/-- Iterate the invalidation round to a fixpoint (the number of links bounds
the number of rounds needed). -/
def invalidSet (g : TeamGraph) : Nat → List Nat
  | 0 => []
  | n + 1 => (g.links.map Prod.fst).filter (invalidStep g (invalidSet g n))

/-- The links the resolver filters out of the graph. -/
def invalidLinks (g : TeamGraph) : List Nat :=
  invalidSet g g.links.length

/-- Minimal membership state derived by the reducer: each member's userId and
roles, plus the removed list. -/
structure MiniState where
  members : List (String × List String)
  removed : List String
deriving DecidableEq, Repr

/-- One reducer transform (spec §4.2); the root member is the founding admin. -/
def applyBody (st : MiniState) (l : LinkBody) : MiniState :=
  match l.action with
  | .root _ => { st with members := st.members ++ [(l.userId, [ADMIN])] }
  | .addMember u roles =>
    if st.members.any (fun m => m.1 = u) || st.removed.contains u then st
    else { st with members := st.members ++ [(u, roles)] }
  | .removeMember u =>
    { st with
      members := st.members.filter fun m => m.1 ≠ u
      removed := st.removed ++ [u] }
  | .addMemberRole u r =>
    { st with
      members := st.members.map fun m =>
        if m.1 = u && !m.2.contains r then (m.1, m.2 ++ [r]) else m }
  | .removeMemberRole u r =>
    { st with
      members := st.members.map fun m =>
        if m.1 = u then (m.1, m.2.filter fun r2 => r2 ≠ r) else m }

/-- Resolve and reduce: fold the reducer over the surviving links in hash
order (a topological order for graphs whose hashes increase along edges). -/
def resolvedState (g : TeamGraph) : MiniState :=
  let I := invalidLinks g
  g.links.foldl (fun st p => if I.contains p.1 then st else applyBody st p.2)
    ⟨[], []⟩

/-- Is this user an admin in the reduced membership state? -/
def isAdminIn (st : MiniState) (u : String) : Bool :=
  st.members.any fun m => m.1 = u && m.2.contains ADMIN

/-- Is this user a (current) member in the reduced membership state? -/
def isMemberIn (st : MiniState) (u : String) : Bool :=
  st.members.any fun m => m.1 = u

/-! ### The demoted-then-acted scenario (C2, cypress test
"Bob promotes Charlie but is concurrently demoted")

alice founds the team and adds bob, charlie and dave, then promotes bob
(links 0–4).  Offline, bob promotes charlie (link 5) and charlie, acting on
that admin grant, promotes dave (link 6).  Concurrently alice demotes bob
(link 7).  The two branches are then merged. -/

/-- Bob's branch: the shared prefix plus bob's promotion of charlie and
charlie's promotion of dave. -/
def branchA : TeamGraph where
  root := 0
  head := [6]
  links :=
    [ (0, ⟨"alice", .root "t", []⟩)
    , (1, ⟨"alice", .addMember "bob" [], [0]⟩)
    , (2, ⟨"alice", .addMember "charlie" [], [1]⟩)
    , (3, ⟨"alice", .addMember "dave" [], [2]⟩)
    , (4, ⟨"alice", .addMemberRole "bob" "admin", [3]⟩)
    , (5, ⟨"bob", .addMemberRole "charlie" "admin", [4]⟩)
    , (6, ⟨"charlie", .addMemberRole "dave" "admin", [5]⟩) ]

/-- Alice's branch: the shared prefix plus alice's concurrent demotion of
bob. -/
def branchB : TeamGraph where
  root := 0
  head := [7]
  links :=
    [ (0, ⟨"alice", .root "t", []⟩)
    , (1, ⟨"alice", .addMember "bob" [], [0]⟩)
    , (2, ⟨"alice", .addMember "charlie" [], [1]⟩)
    , (3, ⟨"alice", .addMember "dave" [], [2]⟩)
    , (4, ⟨"alice", .addMemberRole "bob" "admin", [3]⟩)
    , (7, ⟨"alice", .removeMemberRole "bob" "admin", [4]⟩) ]

/-- The merged graph both peers converge to. -/
def mergedAB : TeamGraph := mergeGraphs branchA branchB

/-! ### getParentMap

Modelled from the spec: the crdx `getParentMap` implementation is not under
src/ (only its test is).  Spec §4.1: "returns a map from each selected
link's hash to its immediate predecessors...  When `depth` is set, include
only links within that many hops of head.  When `end` is set, include only
links reachable from head that are not at or beyond the `end` set.  When
`prev` is supplied, return the complement."  Links already covered by `prev`
cost nothing when counting hops, so `depth` counts hops of links not yet
covered; the model is validated below against every expectation of
src/packages/crdx/src/_test/graph/getParentMap.test.ts. -/

/-- Hop cost of a link when counting depth: links covered by `prev` are
already known to the requester and cost nothing. -/
def linkCost (covered : List Nat) (h : Nat) : Nat :=
  if covered.contains h then 0 else 1

/-- Record a candidate distance for a hash, keeping the smaller of the
candidate and any existing entry. -/
def updateMin (dist : List (Nat × Nat)) (h : Nat) (d : Nat) : List (Nat × Nat) :=
  match dist.find? (fun p => p.1 = h) with
  | some p => if d < p.2 then (h, d) :: dist.filter (fun q => q.1 ≠ h) else dist
  | none => (h, d) :: dist

/-- One relaxation round: propagate every known distance to the link's
immediate predecessors. -/
def relaxOnce (g : TeamGraph) (covered : List Nat) (dist : List (Nat × Nat)) :
    List (Nat × Nat) :=
  dist.foldl
    (fun acc p =>
      match lookupLink g p.1 with
      | none => acc
      | some l =>
        l.prev.foldl (fun acc2 q => updateMin acc2 q (p.2 + linkCost covered q)) acc)
    dist

/-- Distance of every link reachable from the head set: the minimum over
paths of the number of uncovered links on the path (inclusive). -/
def distMap (g : TeamGraph) (covered : List Nat) : List (Nat × Nat) :=
  let init := g.head.foldl (fun acc h => updateMin acc h (linkCost covered h)) []
  (List.range (g.links.length + 1)).foldl (fun acc _ => relaxOnce g covered acc) init

/-- Is this link at or beyond the `end` set (one of the end links or an
ancestor of one)? -/
def beyondEnd (g : TeamGraph) (ends : List Nat) (h : Nat) : Bool :=
  ends.any fun e => e = h || isPredecessor g h e

/-- `getParentMap g depth ends prev`: the parent map of the links reachable
from head that are not covered by `prev`, not at or beyond `ends`, and (when
`depth` is given) within that many uncovered hops of head. -/
def getParentMap (g : TeamGraph) (depth : Option Nat) (ends prev : List Nat) :
    List (Nat × List Nat) :=
  let dm := distMap g prev
  (g.links.filter fun p =>
    match dm.find? (fun q => q.1 = p.1) with
    | none => false
    | some q =>
      !prev.contains p.1 &&
      !beyondEnd g ends p.1 &&
      (match depth with
       | none => true
       | some d => q.2 ≤ d)).map fun p => (p.1, p.2.prev)

/-- The DAG of the `getParentMap` test (payload letters a..l, n, o are
hashes 0..11, 12 (n), 13 (o)):
```
                ┌─ e ─ g ─┐
      ┌─ c ─ d ─┤         ├─ o ─┐
a ─ b ─┤        └─── f ───┤     ├─ n
      ├──── h ──── i ─────┘     │
      └───── j ─── k ── l ──────┘
```
-/
def syncGraph : TeamGraph where
  root := 0
  head := [12]
  links :=
    [ (0, ⟨"u", .root "t", []⟩)
    , (1, ⟨"u", .addMember "b" [], [0]⟩)
    , (2, ⟨"u", .addMember "c" [], [1]⟩)
    , (3, ⟨"u", .addMember "d" [], [2]⟩)
    , (4, ⟨"u", .addMember "e" [], [3]⟩)
    , (5, ⟨"u", .addMember "f" [], [3]⟩)
    , (6, ⟨"u", .addMember "g" [], [4]⟩)
    , (7, ⟨"u", .addMember "h" [], [1]⟩)
    , (8, ⟨"u", .addMember "i" [], [7]⟩)
    , (9, ⟨"u", .addMember "j" [], [1]⟩)
    , (10, ⟨"u", .addMember "k" [], [9]⟩)
    , (11, ⟨"u", .addMember "l" [], [10]⟩)
    , (12, ⟨"u", .addMember "n" [], [11, 13]⟩)
    , (13, ⟨"u", .addMember "o" [], [5, 6, 8]⟩) ]

/-- The full parent map of `syncGraph` (the "entire graph" expectation). -/
def syncFullMap : List (Nat × List Nat) :=
  [ (0, []), (1, [0]), (2, [1]), (3, [2]), (4, [3]), (5, [3]), (6, [4])
  , (7, [1]), (8, [7]), (9, [1]), (10, [9]), (11, [10]), (12, [11, 13])
  , (13, [5, 6, 8]) ]

/-! ### The Team facade

The `Team` class (src/packages/auth/src/team/Team.ts) wraps a store of graph
plus derived state.  We model the derived `TeamState` directly and the graph
as the append-only log of dispatched actions: `dispatch` appends one action
and applies the corresponding reducer transform (spec §4.2; the reducer,
selectors and lockbox modules are not under src/ and are modelled from the
spec).  Key management is collapsed to its observable part: each key scope
carries a generation number, lockboxes carry only their recipient→contents
scope edge, and rotation bumps the generation of the compromised scope and
of every scope visible from it (spec §4.4). -/

/-- A key scope: principal type and name (spec §3 `KeyScope`). -/
structure KeyScope where
  type : String
  name : String
deriving DecidableEq, Repr

/-- The team scope (src/team/constants.ts `TEAM_SCOPE`). -/
def TEAM_SCOPE : KeyScope := ⟨"TEAM", "TEAM"⟩

/-- The admin-role scope (src/team/constants.ts `ADMIN_SCOPE`). -/
def ADMIN_SCOPE : KeyScope := ⟨"ROLE", "admin"⟩

/-- A lockbox, reduced to its visibility edge: the holder of the recipient
scope's keys can read the contents scope's keys (spec §3, §4.4). -/
structure Lockbox where
  recipient : KeyScope
  contents : KeyScope
deriving DecidableEq, Repr

/-- A device record (spec §3 `Device`). -/
structure Device where
  userId : String
  deviceName : String
deriving DecidableEq, Repr

/-- A member record (spec §3 `Member`). -/
structure Member where
  userId : String
  roles : List String
  devices : List Device
deriving DecidableEq, Repr

/-- A server record (spec §3 `Server`). -/
structure Server where
  host : String
deriving DecidableEq, Repr

/-- An invitation record (spec §3 `Invitation`). -/
structure Invitation where
  id : String
  publicKey : String
  expiration : Nat
  maxUses : Nat
  uses : Nat
  revoked : Bool
  userId : Option String
deriving DecidableEq, Repr

/-- The derived team state (spec §3 `TeamState`). -/
structure TeamState where
  teamName : String
  members : List Member
  removedMembers : List Member
  removedDevices : List Device
  servers : List Server
  removedServers : List Server
  roles : List String
  invitations : List (String × Invitation)
  lockboxes : List Lockbox
  generations : List (KeyScope × Nat)
deriving DecidableEq, Repr

/-- selector `hasMember` (used by `Team.has`). -/
def hasMember (st : TeamState) (u : String) : Bool :=
  st.members.any fun m => m.userId = u

/-- selector `memberWasRemoved`. -/
def memberWasRemoved (st : TeamState) (u : String) : Bool :=
  st.removedMembers.any fun m => m.userId = u

/-- selector `hasServer`. -/
def hasServer (st : TeamState) (host : String) : Bool :=
  st.servers.any fun s => s.host = host

/-- selector `serverWasRemoved`. -/
def serverWasRemoved (st : TeamState) (host : String) : Bool :=
  st.removedServers.any fun s => s.host = host

/-- selector `hasDevice`: does the member with this userId currently have a
device by this name? -/
def hasDevice (st : TeamState) (u d : String) : Bool :=
  st.members.any fun m => m.userId = u && m.devices.any fun dev => dev.deviceName = d

/-- selector `deviceWasRemoved` (keyed by deviceId = userId + deviceName). -/
def deviceWasRemoved (st : TeamState) (u d : String) : Bool :=
  st.removedDevices.any fun dev => dev.userId = u && dev.deviceName = d

/-- selector `membersInRole`. -/
def membersInRole (st : TeamState) (r : String) : List Member :=
  st.members.filter fun m => m.roles.contains r

/-- selector `memberHasRole`, and `memberIsAdmin` = `memberHasRole ADMIN`. -/
def memberHasRole (st : TeamState) (u r : String) : Bool :=
  st.members.any fun m => m.userId = u && m.roles.contains r

/-- Current generation of a scope's keyset (0 until first rotation). -/
def scopeGeneration (st : TeamState) (s : KeyScope) : Nat :=
  match st.generations.find? (fun p => p.1 = s) with
  | some p => p.2
  | none => 0

/-- Bump a scope's generation by one in the generation table. -/
def bumpGen (gens : List (KeyScope × Nat)) (s : KeyScope) : List (KeyScope × Nat) :=
  match gens.find? (fun p => p.1 = s) with
  | some p => (s, p.2 + 1) :: gens.filter fun q => q.1 ≠ s
  | none => (s, 1) :: gens

/-- One step of the lockbox visibility closure: scopes readable in one hop
from any scope already reached. -/
def visibleNext (st : TeamState) (acc : List KeyScope) : List KeyScope :=
  ((st.lockboxes.filter fun lb => acc.contains lb.recipient).map
    Lockbox.contents).filter fun s => !acc.contains s

/-- Fuel-bounded visibility closure (selector `visibleScopes`, spec §4.4):
all scopes reachable from the given ones via lockbox edges. -/
def visibleClosure (st : TeamState) : Nat → List KeyScope → List KeyScope
  | 0, acc => acc
  | fuel + 1, acc =>
    match visibleNext st acc with
    | [] => acc
    | next => visibleClosure st fuel (acc ++ next)

/-- The scopes whose keys `Team.rotateKeys` regenerates for a compromised
scope: the scope itself plus everything visible from it. -/
def rotateScopes (st : TeamState) (compromised : KeyScope) : List KeyScope :=
  visibleClosure st st.lockboxes.length [compromised]

/-- Bump the generation of every rotated scope. -/
def bumpGenerations (st : TeamState) (scopes : List KeyScope) : TeamState :=
  { st with generations := scopes.foldl bumpGen st.generations }

/-- Errors thrown by facade operations (spec §7 error taxonomy; the source
throws assertion messages at the same sites). -/
inductive TeamError where
  | notAdmin
  | cannotRemoveLastAdmin
  | cannotRemoveAdminRole
  | cannotInviteOnServer
  | cannotJoinOnServer
  | memberNotFound
  | deviceNotFound
deriving DecidableEq, Repr

/-- The actions a facade operation can dispatch to the graph.  Rotation
lockboxes are collapsed to the list of rotated scopes they re-key. -/
inductive TAction where
  | addMember (m : Member) (roles : List String) (lockboxes : List Lockbox)
  | removeMember (userId : String) (rotated : List KeyScope)
  | addMemberRole (userId roleName : String) (lockboxes : List Lockbox)
  | removeMemberRole (userId roleName : String) (rotated : List KeyScope)
  | removeRole (roleName : String)
  | inviteMember (invitation : Invitation)
  | inviteDevice (invitation : Invitation)
  | addDevice (device : Device)
deriving DecidableEq, Repr

/-- The reducer transform for one action (spec §4.2): ADD_MEMBER no-ops on a
present member; REMOVE_MEMBER moves the member to `removedMembers`, drops
their devices and installs the rotation (generation bump); role actions
adjust the member's role list. -/
def applyAction (st : TeamState) : TAction → TeamState
  | .addMember m _roles lbs =>
    if hasMember st m.userId then st
    else { st with members := st.members ++ [m], lockboxes := st.lockboxes ++ lbs }
  | .removeMember u rotated =>
    let st2 := bumpGenerations st rotated
    match st2.members.find? (fun m => m.userId = u) with
    | none => st2
    | some m =>
      { st2 with
        members := st2.members.filter fun m2 => m2.userId ≠ u
        removedMembers := st2.removedMembers ++ [{ m with devices := [] }]
        removedDevices := st2.removedDevices ++ m.devices }
  | .addMemberRole u r lbs =>
    { st with
      members := st.members.map fun m =>
        if m.userId = u && !m.roles.contains r then { m with roles := m.roles ++ [r] }
        else m
      lockboxes := st.lockboxes ++ lbs }
  | .removeMemberRole u r rotated =>
    let st2 := bumpGenerations st rotated
    { st2 with
      members := st2.members.map fun m =>
        if m.userId = u then { m with roles := m.roles.filter fun r2 => r2 ≠ r }
        else m }
  | .removeRole r => { st with roles := st.roles.filter fun r2 => r2 ≠ r }
  | .inviteMember inv => { st with invitations := st.invitations ++ [(inv.id, inv)] }
  | .inviteDevice inv => { st with invitations := st.invitations ++ [(inv.id, inv)] }
  | .addDevice d =>
    { st with
      members := st.members.map fun m =>
        if m.userId = d.userId then { m with devices := m.devices ++ [d] } else m }

/-- A `Team` instance: local context (server?, user, device), derived state,
and the log of dispatched actions (the local tail of the graph). -/
structure Team where
  isServer : Bool
  userId : String
  deviceName : String
  state : TeamState
  log : List TAction
deriving DecidableEq, Repr

/-- `Team.dispatch`: append a link to the graph, then recompute team state. -/
def Team.dispatch (t : Team) (a : TAction) : Team :=
  { t with log := t.log ++ [a], state := applyAction t.state a }

/-- The USER scope of a member. -/
def USER_SCOPE (u : String) : KeyScope := ⟨"USER", u⟩

/-- The ROLE scope of a role. -/
def ROLE_SCOPE (r : String) : KeyScope := ⟨"ROLE", r⟩

/-- `getDeviceId` (device/index.js): a deviceId pairs userId and deviceName. -/
def getDeviceId (u d : String) : String :=
  String.append u (String.append "::" d)

/-- `createMemberLockboxes`: one lockbox per role plus the team keys, all
addressed to the new member (Team.ts). -/
def memberLockboxes (m : Member) : List Lockbox :=
  (m.roles.map fun r => Lockbox.mk (USER_SCOPE m.userId) (ROLE_SCOPE r)) ++
    [⟨USER_SCOPE m.userId, TEAM_SCOPE⟩]

/-- `Team.addForTesting` (without a device): dispatch ADD_MEMBER with the
member's lockboxes. -/
def Team.addMemberForTesting (t : Team) (m : Member) : Team :=
  t.dispatch (.addMember m m.roles (memberLockboxes m))

/-- `Team.remove`: rotate every scope the member could see, then dispatch
REMOVE_MEMBER (Team.ts). -/
def Team.remove (t : Team) (u : String) : Team :=
  t.dispatch (.removeMember u (rotateScopes t.state (USER_SCOPE u)))

/-- `Team.removeMemberRole`: for the admin role, assert more than one admin
remains ("Can't remove the last admin"), then rotate the role's scopes and
dispatch REMOVE_MEMBER_ROLE (Team.ts). -/
def Team.removeMemberRole (t : Team) (u r : String) : Except TeamError Team :=
  if r = ADMIN ∧ (membersInRole t.state ADMIN).length ≤ 1 then
    .error .cannotRemoveLastAdmin
  else
    .ok (t.dispatch (.removeMemberRole u r (rotateScopes t.state (ROLE_SCOPE r))))

/-- `Team.removeRole`: asserts the role is not the admin role ("Cannot
remove admin role"), then dispatches REMOVE_ROLE (Team.ts). -/
def Team.removeRole (t : Team) (r : String) : Except TeamError Team :=
  if r = ADMIN then .error .cannotRemoveAdminRole
  else .ok (t.dispatch (.removeRole r))

/-- Seed normalization (invitation/normalize.js, modelled from the spec:
lowercase and strip whitespace/punctuation). -/
def normalizeSeed (s : String) : String :=
  String.mk ((s.toList.map Char.toLower).filter Char.isAlphanum)

/-- `invitations.create` (modelled from the spec: the invitation keypair and
id are derived deterministically from the normalized seed). -/
def inviteCreate (seed : String) (expiration maxUses : Nat) (uid : Option String) :
    Invitation :=
  ⟨String.append "id:" seed, String.append "pk:" seed, expiration, maxUses, 0,
    false, uid⟩

/-- The id and secret seed handed back by the invite operations. -/
structure InviteResult where
  id : String
  seed : String
deriving DecidableEq, Repr

/-- `Team.inviteMember` (Team.ts): normalize the seed, generate the
invitation, dispatch INVITE_MEMBER.  NOTE: the source performs no server
check here. -/
def Team.inviteMember (t : Team) (seed : String) (expiration maxUses : Nat) :
    Except TeamError (Team × InviteResult) :=
  let s := normalizeSeed seed
  let inv := inviteCreate s expiration maxUses none
  .ok (t.dispatch (.inviteMember inv), ⟨inv.id, s⟩)

/-- `Team.inviteDevice` (Team.ts): asserts "Server can't invite a device",
forces `maxUses = 1` and fixes the inviter's userId, then dispatches
INVITE_DEVICE. -/
def Team.inviteDevice (t : Team) (seed : String) (expiration : Nat) :
    Except TeamError (Team × InviteResult) :=
  if t.isServer then .error .cannotInviteOnServer
  else
    let s := normalizeSeed seed
    let inv := inviteCreate s expiration 1 (some t.userId)
    .ok (t.dispatch (.inviteDevice inv), ⟨inv.id, s⟩)

/-- `Team.join` (Team.ts): asserts "Can't join as member on server", then
dispatches ADD_DEVICE for the local device. -/
def Team.join (t : Team) : Except TeamError Team :=
  if t.isServer then .error .cannotJoinOnServer
  else .ok (t.dispatch (.addDevice ⟨t.userId, t.deviceName⟩))

/-- Invitation validation error kinds (spec §7). -/
inductive InvitationError where
  | invitationNotFound
  | revokedInvitation
  | usedInvitation
  | expiredInvitation
  | signatureInvalid
deriving DecidableEq, Repr

/-- Result of invitation validation (`{isValid, error}` in the source). -/
inductive ValidationResult where
  | valid
  | fail (e : InvitationError)
deriving DecidableEq, Repr

/-- selector `getInvitation`/`hasInvitation`: look an invitation up by id. -/
def lookupInvitation (st : TeamState) (id : String) : Option Invitation :=
  match st.invitations.find? (fun p => p.1 = id) with
  | some p => some p.2
  | none => none

/-- `invitations.invitationCanBeUsed` (modelled from the spec: VALID iff not
revoked, `uses < maxUses`, and `now < expiration`). -/
def invitationCanBeUsed (inv : Invitation) (now : Nat) : ValidationResult :=
  if inv.revoked then .fail .revokedInvitation
  else if inv.maxUses ≤ inv.uses then .fail .usedInvitation
  else if inv.expiration ≤ now then .fail .expiredInvitation
  else .valid

/-- A Seitan proof of invitation: the id plus a signature made with the
invitation keypair. -/
structure ProofOfInvitation where
  id : String
  signature : String
deriving DecidableEq, Repr

/-- `invitations.validate` (modelled from the spec: verify the proof's
signature against the invitation's stored public key). -/
def invitationValidate (verify : String → String → Bool)
    (proof : ProofOfInvitation) (inv : Invitation) : ValidationResult :=
  if verify proof.signature inv.publicKey then .valid
  else .fail .signatureInvalid

/-- `Team.validateInvitation` (Team.ts): unknown id fails; then the
can-be-used check; then the signature check.  `verify` abstracts the
signature primitive, `now` the clock. -/
def Team.validateInvitation (t : Team) (verify : String → String → Bool)
    (proof : ProofOfInvitation) (now : Nat) : ValidationResult :=
  match lookupInvitation t.state proof.id with
  | none => .fail .invitationNotFound
  | some inv =>
    match invitationCanBeUsed inv now with
    | .valid => invitationValidate verify proof inv
    | r => r

/-- Results of `Team.lookupIdentity` (Team.ts `LookupIdentityResult`). -/
inductive LookupIdentityResult where
  | validDevice
  | memberUnknown
  | memberRemoved
  | deviceUnknown
  | deviceRemoved
deriving DecidableEq, Repr

/-- `Team.lookupIdentity` (Team.ts): the device identity claim is parsed to
(userId, deviceName) and checked through the removal/unknown chain. -/
def lookupIdentity (st : TeamState) (u d : String) : LookupIdentityResult :=
  if memberWasRemoved st u || serverWasRemoved st u then .memberRemoved
  else if !hasMember st u && !hasServer st u then .memberUnknown
  else if deviceWasRemoved st u d then .deviceRemoved
  else if !hasDevice st u d && !hasServer st u then .deviceUnknown
  else .validDevice

/-- selector `member` (modelled from the spec: search active members, then —
only when `includeRemoved` — removed members; a user never on the team is a
"not found" error). -/
def selectMember (st : TeamState) (u : String) (includeRemoved : Bool) :
    Except TeamError Member :=
  match st.members.find? (fun m => m.userId = u) with
  | some m => .ok m
  | none =>
    if includeRemoved then
      match st.removedMembers.find? (fun m => m.userId = u) with
      | some m => .ok m
      | none => .error .memberNotFound
    else .error .memberNotFound

/-- `Team.members(userId)` without options: the source defaults to
`options = { includeRemoved: true }` (Team.ts line 275). -/
def Team.membersOne (t : Team) (u : String) : Except TeamError Member :=
  selectMember t.state u true

/-- selector `device` (modelled from the spec: search the member's active
devices, then — only when `includeRemoved` — the removed devices). -/
def selectDevice (st : TeamState) (u d : String) (includeRemoved : Bool) :
    Except TeamError Device :=
  match (st.members.find? (fun m => m.userId = u)).bind
      (fun m => m.devices.find? (fun dev => dev.deviceName = d)) with
  | some dev => .ok dev
  | none =>
    if includeRemoved then
      match st.removedDevices.find? (fun dev => dev.userId = u && dev.deviceName = d) with
      | some dev => .ok dev
      | none => .error .deviceNotFound
    else .error .deviceNotFound

/-- `Team.device(userId, deviceName)` without options: the source defaults
to `options = { includeRemoved: false }` (Team.ts line 437). -/
def Team.deviceOne (t : Team) (u d : String) : Except TeamError Device :=
  selectDevice t.state u d false

/-! ### Concrete teams for the facade scenarios -/

/-- Alice's laptop. -/
def aliceDevice : Device := ⟨"alice", "laptop"⟩

/-- Alice, the founding admin. -/
def aliceMember : Member := ⟨"alice", ["admin"], [aliceDevice]⟩

/-- Bob, added as an admin (with no device yet). -/
def bobMember : Member := ⟨"bob", ["admin"], []⟩

/-- The state created by the `Team` constructor for a new team: the founder
with the admin role, and the three founding lockboxes (team keys and admin
keys for alice, alice's user keys for her device) — Team.ts lines 108-121. -/
def newTeamState : TeamState where
  teamName := "t"
  members := [aliceMember]
  removedMembers := []
  removedDevices := []
  servers := []
  removedServers := []
  roles := ["admin"]
  invitations := []
  lockboxes :=
    [ ⟨USER_SCOPE "alice", TEAM_SCOPE⟩
    , ⟨USER_SCOPE "alice", ADMIN_SCOPE⟩
    , ⟨⟨"DEVICE", getDeviceId "alice" "laptop"⟩, USER_SCOPE "alice"⟩ ]
  generations := []

/-- Alice's fresh team (`createTeam("t", alice)`). -/
def aliceTeam : Team := ⟨false, "alice", "laptop", newTeamState, []⟩

/-- setup(alice, bob:admin): alice's team after adding bob as an admin. -/
def setupTeam : Team := aliceTeam.addMemberForTesting bobMember

/-- The team after `alice.remove("bob")`. -/
def teamAfterRemove : Team := setupTeam.remove "bob"

/-- A `Team` instance whose local context is a server (the server's host
name serves as both userId and deviceName — Team.ts constructor). -/
def serverTeam : Team := ⟨true, "example.com", "example.com", newTeamState, []⟩

/-- The invitation `inviteMember` derives on the server team from the seed
"abc 123" (normalized to "abc123"). -/
def serverInvite : Invitation := inviteCreate (normalizeSeed "abc 123") 100 5 none

example : bySeniority forkGraph "bob" "carol" = some 1 := by decide
example : bySeniority forkGraph "carol" "bob" = some 1 := by decide
example : bySeniority forkGraph "alice" "bob" = some (-1) := by decide

/-- C1 counterexample: on `forkGraph`, bob and carol were added by concurrent
ADD_MEMBER links (hashes 1 and 2, no path between them), yet `bySeniority`
returns `1` for both argument orders.  The order is therefore not decided by
the hash of the ADD_MEMBER link, and swapping the arguments does not reverse
the sign: the comparator is not antisymmetric on concurrent additions. -/
theorem bySeniority_concurrent_not_antisymmetric :
    isPredecessor forkGraph 1 2 = false ∧
    isPredecessor forkGraph 2 1 = false ∧
    bySeniority forkGraph "bob" "carol" = some 1 ∧
    bySeniority forkGraph "carol" "bob" = some 1 := by decide

/-- C1 (amended): `bySeniority` sorts the root link's author first; among
non-founders, if `a`'s ADD_MEMBER link strictly precedes `b`'s then `a` sorts
first, and in every other case — including when the two ADD_MEMBER links are
concurrent — it returns `1`.  Concurrent additions are NOT tie-broken by hash
(the source leaves this as a TODO), so on them the comparator returns `1` for
both argument orders and is not antisymmetric. -/
theorem bySeniority_amended (g : TeamGraph) (a b : String) (la lb : Nat)
    (hla : linkThatAddedMember g a = some la)
    (hlb : linkThatAddedMember g b = some lb) :
    (isFounder g a = true → bySeniority g a b = some (-1)) ∧
    (isFounder g a = false → isFounder g b = true → bySeniority g a b = some 1) ∧
    (isFounder g a = false → isFounder g b = false →
      isPredecessor g la lb = true → bySeniority g a b = some (-1)) ∧
    (isFounder g a = false → isFounder g b = false →
      isPredecessor g la lb = false → bySeniority g a b = some 1) ∧
    (isFounder g a = false → isFounder g b = false →
      isPredecessor g la lb = false → isPredecessor g lb la = false →
      bySeniority g a b = some 1 ∧ bySeniority g b a = some 1) := by
  refine ⟨?_, ?_, ?_, ?_, ?_⟩
  · intro h; simp [bySeniority, h]
  · intro ha hb; simp [bySeniority, ha, hb]
  · intro ha hb hp; simp [bySeniority, ha, hb, hla, hlb, hp]
  · intro ha hb hp; simp [bySeniority, ha, hb, hla, hlb, hp]
  · intro ha hb hab hba
    constructor
    · simp [bySeniority, ha, hb, hla, hlb, hab]
    · simp [bySeniority, ha, hb, hla, hlb, hba]

/-- C1 amended witness: instantiates `bySeniority_amended` on `forkGraph`
with bob and carol, whose ADD_MEMBER links are hashes 1 and 2. -/
theorem bySeniority_amended_witness :
    linkThatAddedMember forkGraph "bob" = some 1 ∧
    linkThatAddedMember forkGraph "carol" = some 2 ∧
    (bySeniority forkGraph "bob" "carol" = some 1 ∧
      bySeniority forkGraph "carol" "bob" = some 1) := by
  refine ⟨by decide, by decide, ?_⟩
  exact (bySeniority_amended forkGraph "bob" "carol" 1 2 (by decide)
    (by decide)).2.2.2.2 (by decide) (by decide) (by decide) (by decide)

/-- C2: invalidated authority cascades.  In the merged graph, bob's promotion
of charlie (link 5) is concurrent with alice's demotion of bob (link 7); the
resolver filters out link 5 and, recursively, charlie's admin action taken on
the strength of it (link 6).  The resolved state has neither bob nor charlie
(nor dave, whom charlie promoted) as an admin, while everyone stays a member
and alice stays admin — exactly the cypress scenario "Bob promotes Charlie
but is concurrently demoted". -/
theorem demotion_invalidates_promotion :
    concurrent mergedAB 5 7 = true ∧
    invalidLinks mergedAB = [5, 6] ∧
    isAdminIn (resolvedState mergedAB) "bob" = false ∧
    isAdminIn (resolvedState mergedAB) "charlie" = false ∧
    isAdminIn (resolvedState mergedAB) "dave" = false ∧
    isAdminIn (resolvedState mergedAB) "alice" = true ∧
    isMemberIn (resolvedState mergedAB) "bob" = true ∧
    isMemberIn (resolvedState mergedAB) "charlie" = true := by decide

/-- C9: `getParentMap` filtering.  The modelled `getParentMap` reproduces
every expectation of the crdx test suite on its 14-link DAG: (1) with a
depth it returns exactly the links within that many hops of the head set
(depth 2, 3 and 10, and the whole graph when depth is omitted); (2) with an
end set it returns exactly the links reachable from head that are not at or
beyond the set (ends b, chj, gfik) — the end links and their ancestors are
excluded while links whose immediate predecessors are in the set are kept;
and (3) when a previously returned map covers l, n, o it returns the
complement (all 11 remaining links, or the next two uncovered hops when a
depth is also given, matching the "depth 2 + 2" test). -/
theorem getParentMap_test_vectors :
    getParentMap syncGraph (some 2) [] [] =
      [(11, [10]), (12, [11, 13]), (13, [5, 6, 8])] ∧
    getParentMap syncGraph (some 3) [] [] =
      [(5, [3]), (6, [4]), (8, [7]), (10, [9]), (11, [10]), (12, [11, 13]),
        (13, [5, 6, 8])] ∧
    getParentMap syncGraph (some 10) [] [] = syncFullMap ∧
    getParentMap syncGraph none [] [] = syncFullMap ∧
    getParentMap syncGraph none [1] [] = syncFullMap.filter (fun p => 2 ≤ p.1) ∧
    getParentMap syncGraph none [2, 7, 9] [] =
      [(3, [2]), (4, [3]), (5, [3]), (6, [4]), (8, [7]), (10, [9]),
        (11, [10]), (12, [11, 13]), (13, [5, 6, 8])] ∧
    getParentMap syncGraph none [6, 5, 8, 10] [] =
      [(11, [10]), (12, [11, 13]), (13, [5, 6, 8])] ∧
    getParentMap syncGraph (some 2) [] [11, 12, 13] =
      [(3, [2]), (4, [3]), (5, [3]), (6, [4]), (7, [1]), (8, [7]), (9, [1]),
        (10, [9])] ∧
    getParentMap syncGraph none [] [11, 12, 13] =
      syncFullMap.filter (fun p => p.1 ≤ 10) := by
  refine ⟨by decide, by decide, by decide, by decide, by decide, by decide,
    by decide, by decide, by decide⟩

/-- C4: removal rotates keys.  Starting from setup(alice, bob:admin) with all
keysets at generation 0, after `alice.remove("bob")` the team keyset and the
admin role keyset are both at generation 1, `memberWasRemoved("bob")` is
true, and `members()` no longer contains bob. -/
theorem remove_rotates_keys :
    scopeGeneration setupTeam.state TEAM_SCOPE = 0 ∧
    scopeGeneration setupTeam.state ADMIN_SCOPE = 0 ∧
    rotateScopes setupTeam.state (USER_SCOPE "bob") =
      [USER_SCOPE "bob", ADMIN_SCOPE, TEAM_SCOPE] ∧
    scopeGeneration teamAfterRemove.state TEAM_SCOPE = 1 ∧
    scopeGeneration teamAfterRemove.state ADMIN_SCOPE = 1 ∧
    memberWasRemoved teamAfterRemove.state "bob" = true ∧
    teamAfterRemove.state.members.map Member.userId = ["alice"] := by decide

/-- C5: `lookupIdentity` returns exactly one of its five results, with the
checks applied in precedence order: removed member/server first, then
unknown member/server, then removed device, then unknown device, else a
valid device. -/
theorem lookupIdentity_precedence (st : TeamState) (u d : String) :
    (lookupIdentity st u d = .memberRemoved ↔
      (memberWasRemoved st u = true ∨ serverWasRemoved st u = true)) ∧
    (lookupIdentity st u d = .memberUnknown ↔
      (memberWasRemoved st u = false ∧ serverWasRemoved st u = false ∧
        hasMember st u = false ∧ hasServer st u = false)) ∧
    (lookupIdentity st u d = .deviceRemoved ↔
      (memberWasRemoved st u = false ∧ serverWasRemoved st u = false ∧
        (hasMember st u = true ∨ hasServer st u = true) ∧
        deviceWasRemoved st u d = true)) ∧
    (lookupIdentity st u d = .deviceUnknown ↔
      (memberWasRemoved st u = false ∧ serverWasRemoved st u = false ∧
        (hasMember st u = true ∨ hasServer st u = true) ∧
        deviceWasRemoved st u d = false ∧
        hasDevice st u d = false ∧ hasServer st u = false)) ∧
    (lookupIdentity st u d = .validDevice ↔
      (memberWasRemoved st u = false ∧ serverWasRemoved st u = false ∧
        (hasMember st u = true ∨ hasServer st u = true) ∧
        deviceWasRemoved st u d = false ∧
        (hasDevice st u d = true ∨ hasServer st u = true))) := by
  unfold lookupIdentity
  cases hA : memberWasRemoved st u <;> cases hB : serverWasRemoved st u <;>
    cases hC : hasMember st u <;> cases hD : hasServer st u <;>
    cases hE : deviceWasRemoved st u d <;> cases hF : hasDevice st u d <;>
    simp_all

/-- The can-be-used check succeeds exactly when the invitation is unrevoked,
under its use limit, and unexpired. -/
theorem invitationCanBeUsed_valid_iff (inv : Invitation) (now : Nat) :
    invitationCanBeUsed inv now = .valid ↔
      (inv.revoked = false ∧ inv.uses < inv.maxUses ∧ now < inv.expiration) := by
  unfold invitationCanBeUsed
  split_ifs with h1 h2 h3 <;> simp_all

/-- C6: `validateInvitation(proof)` succeeds iff an invitation with the
proof's id exists, is not revoked, has been used strictly fewer than
`maxUses` times, has not expired, and the proof's signature verifies
against its stored public key; in every other case the result is a
failure. -/
theorem validateInvitation_iff (t : Team) (verify : String → String → Bool)
    (proof : ProofOfInvitation) (now : Nat) :
    (Team.validateInvitation t verify proof now = .valid ↔
      ∃ inv, lookupInvitation t.state proof.id = some inv ∧
        inv.revoked = false ∧ inv.uses < inv.maxUses ∧ now < inv.expiration ∧
        verify proof.signature inv.publicKey = true) ∧
    (Team.validateInvitation t verify proof now = .valid ∨
      ∃ e, Team.validateInvitation t verify proof now = .fail e) := by
  constructor
  · cases hinv : lookupInvitation t.state proof.id with
    | none => simp [Team.validateInvitation, hinv]
    | some inv =>
      simp only [Team.validateInvitation, hinv]
      cases hc : invitationCanBeUsed inv now with
      | valid =>
        have hv := (invitationCanBeUsed_valid_iff inv now).mp hc
        show invitationValidate verify proof inv = ValidationResult.valid ↔ _
        unfold invitationValidate
        split_ifs with h4
        · constructor
          · intro _
            exact ⟨inv, rfl, hv.1, hv.2.1, hv.2.2, h4⟩
          · intro _
            rfl
        · constructor
          · intro hbad
            exact absurd hbad (by simp)
          · rintro ⟨inv2, heq, _, _, _, hs⟩
            rw [Option.some_inj] at heq
            subst heq
            exact absurd hs h4
      | fail e =>
        show ValidationResult.fail e = ValidationResult.valid ↔ _
        constructor
        · intro hbad
          exact absurd hbad (by simp)
        · rintro ⟨inv2, heq, hnr, hu, he, _⟩
          rw [Option.some_inj] at heq
          subst heq
          have hvv := (invitationCanBeUsed_valid_iff inv now).mpr ⟨hnr, hu, he⟩
          rw [hc] at hvv
          exact absurd hvv (by simp)
  · cases h : Team.validateInvitation t verify proof now with
    | valid => exact Or.inl rfl
    | fail e => exact Or.inr ⟨e, rfl⟩

/-- C7: last-admin protection at dispatch.  When the admin role has exactly
one member, `removeMemberRole(userId, ADMIN)` fails for every userId (the
error is raised before anything is dispatched, so the graph and state are
untouched); `removeRole(ADMIN)` fails unconditionally; with more than one
admin, `removeMemberRole(userId, ADMIN)` dispatches the removal. -/
theorem last_admin_protection (t : Team) (u : String) :
    ((membersInRole t.state ADMIN).length = 1 →
      Team.removeMemberRole t u ADMIN = .error .cannotRemoveLastAdmin) ∧
    (Team.removeRole t ADMIN = .error .cannotRemoveAdminRole) ∧
    (1 < (membersInRole t.state ADMIN).length →
      Team.removeMemberRole t u ADMIN =
        .ok (t.dispatch (.removeMemberRole u ADMIN
          (rotateScopes t.state (ROLE_SCOPE ADMIN))))) := by
  refine ⟨?_, ?_, ?_⟩
  · intro h
    unfold Team.removeMemberRole
    rw [if_pos ⟨rfl, by omega⟩]
  · unfold Team.removeRole
    rw [if_pos rfl]
  · intro h
    unfold Team.removeMemberRole
    rw [if_neg]
    intro hc
    omega

/-- C7 witness: on alice's fresh team (one admin) removing alice's admin
role fails; on setup(alice, bob:admin) (two admins) it dispatches. -/
theorem last_admin_protection_witness :
    ((membersInRole aliceTeam.state ADMIN).length = 1 ∧
      Team.removeMemberRole aliceTeam "alice" ADMIN =
        .error .cannotRemoveLastAdmin) ∧
    (1 < (membersInRole setupTeam.state ADMIN).length ∧
      Team.removeMemberRole setupTeam "bob" ADMIN =
        .ok (setupTeam.dispatch (.removeMemberRole "bob" ADMIN
          (rotateScopes setupTeam.state (ROLE_SCOPE ADMIN))))) :=
  ⟨⟨by decide, (last_admin_protection aliceTeam "alice").1 (by decide)⟩,
    ⟨by decide, (last_admin_protection setupTeam "bob").2.2 (by decide)⟩⟩

/-- C8 counterexample: on a server-context team, `inviteMember` succeeds and
dispatches an INVITE_MEMBER link — the source performs no server check in
`inviteMember`, contradicting the claim that both invite operations fail on
a server with nothing dispatched. -/
theorem inviteMember_on_server_dispatches :
    serverTeam.isServer = true ∧
    Team.inviteMember serverTeam "abc 123" 100 5 =
      .ok (serverTeam.dispatch (.inviteMember serverInvite),
        ⟨serverInvite.id, normalizeSeed "abc 123"⟩) ∧
    (serverTeam.dispatch (.inviteMember serverInvite)).log =
      serverTeam.log ++ [.inviteMember serverInvite] ∧
    serverInvite.id = "id:abc123" := by
  exact ⟨rfl, rfl, rfl, by decide⟩

/-- C8 (amended): on a server-context team, `inviteDevice` fails
(CANNOT_INVITE_ON_SERVER) and `join` fails (CANNOT_JOIN_ON_SERVER), each
before dispatching anything; `inviteMember`, however, performs no server
check and dispatches the INVITE_MEMBER link normally. -/
theorem server_prohibitions_amended (t : Team) (h : t.isServer = true)
    (seed : String) (e m : Nat) :
    Team.inviteDevice t seed e = .error .cannotInviteOnServer ∧
    Team.join t = .error .cannotJoinOnServer ∧
    Team.inviteMember t seed e m =
      .ok (t.dispatch (.inviteMember (inviteCreate (normalizeSeed seed) e m none)),
        ⟨(inviteCreate (normalizeSeed seed) e m none).id, normalizeSeed seed⟩) := by
  refine ⟨?_, ?_, rfl⟩
  · unfold Team.inviteDevice
    rw [h]
    rfl
  · unfold Team.join
    rw [h]
    rfl

/-- C8 amended witness: instantiates the amended claim on the concrete
server-context team. -/
theorem server_prohibitions_amended_witness :
    serverTeam.isServer = true ∧
    Team.inviteDevice serverTeam "abc 123" 100 = .error .cannotInviteOnServer ∧
    Team.join serverTeam = .error .cannotJoinOnServer :=
  ⟨rfl, (server_prohibitions_amended serverTeam rfl "abc 123" 100 5).1,
    (server_prohibitions_amended serverTeam rfl "abc 123" 100 5).2.1⟩

/-- C10: `Team.members(userId)` without options defaults to
`includeRemoved: true`: a removed member is still returned (while `has`
returns false), and only a user never on the team is a "not found" error;
by contrast `Team.device(userId, deviceName)` without options defaults to
`includeRemoved: false`, so a device not among the member's active devices
is an error regardless of the removed-devices record. -/
theorem members_lookup_defaults (t : Team) (u d : String) (m : Member) :
    (t.state.members.find? (fun m2 => m2.userId = u) = none →
      t.state.removedMembers.find? (fun m2 => m2.userId = u) = some m →
      Team.membersOne t u = .ok m ∧ hasMember t.state u = false) ∧
    (t.state.members.find? (fun m2 => m2.userId = u) = none →
      t.state.removedMembers.find? (fun m2 => m2.userId = u) = none →
      Team.membersOne t u = .error .memberNotFound) ∧
    ((t.state.members.find? (fun m2 => m2.userId = u)).bind
        (fun m2 => m2.devices.find? (fun dev => dev.deviceName = d)) = none →
      Team.deviceOne t u d = .error .deviceNotFound) := by
  refine ⟨?_, ?_, ?_⟩
  · intro h1 h2
    constructor
    · unfold Team.membersOne selectMember
      rw [h1, h2]
      rfl
    · simp only [hasMember, List.any_eq_false]
      intro x hx
      exact List.find?_eq_none.mp h1 x hx
  · intro h1 h2
    unfold Team.membersOne selectMember
    rw [h1, h2]
    rfl
  · intro h1
    unfold Team.deviceOne selectDevice
    rw [h1]
    rfl

/-- C10 witness: after alice removes bob, `members("bob")` still returns
bob's record while `has("bob")` is false, and looking up a device bob never
had is an error. -/
theorem members_lookup_defaults_witness :
    Team.membersOne teamAfterRemove "bob" = .ok bobMember ∧
    hasMember teamAfterRemove.state "bob" = false ∧
    Team.deviceOne teamAfterRemove "bob" "phone" = .error .deviceNotFound := by
  have h := members_lookup_defaults teamAfterRemove "bob" "phone" bobMember
  exact ⟨(h.1 (by decide) (by decide)).1, (h.1 (by decide) (by decide)).2,
    h.2.2 (by decide)⟩

/-! ### Sorted-store lemmas for the merge laws -/

theorem findLink_cons (p : Nat × LinkBody) (l : List (Nat × LinkBody)) (k : Nat) :
    findLink (p :: l) k = if p.1 = k then some p.2 else findLink l k := by
  by_cases h : p.1 = k <;> simp [findLink, List.find?, h]

theorem sorted_head_lt {p : Nat × LinkBody} {l : List (Nat × LinkBody)}
    (hs : keysSorted (p :: l)) : ∀ q ∈ l, p.1 < q.1 :=
  (List.pairwise_cons.mp hs).1

theorem sorted_tail {p : Nat × LinkBody} {l : List (Nat × LinkBody)}
    (hs : keysSorted (p :: l)) : keysSorted l :=
  (List.pairwise_cons.mp hs).2

theorem findLink_eq_none {l : List (Nat × LinkBody)} {k : Nat}
    (h : ∀ q ∈ l, k < q.1) : findLink l k = none := by
  induction l with
  | nil => rfl
  | cons p t ih =>
    have hne : ¬p.1 = k := by
      have := h p (List.mem_cons_self p t)
      omega
    rw [findLink_cons, if_neg hne]
    exact ih fun q hq => h q (List.mem_cons_of_mem p hq)

theorem findLink_mem {l : List (Nat × LinkBody)} {k : Nat} {v : LinkBody}
    (h : findLink l k = some v) : (k, v) ∈ l := by
  induction l with
  | nil => simp [findLink] at h
  | cons p t ih =>
    rw [findLink_cons] at h
    by_cases hk : p.1 = k
    · rw [if_pos hk] at h
      injection h with h2
      cases p with
      | mk a b =>
        cases hk
        cases h2
        exact List.mem_cons_self _ _
    · rw [if_neg hk] at h
      exact List.mem_cons_of_mem p (ih h)

theorem findLink_ext {xs ys : List (Nat × LinkBody)} (hx : keysSorted xs)
    (hy : keysSorted ys) (h : ∀ k, findLink xs k = findLink ys k) : xs = ys := by
  induction xs generalizing ys with
  | nil =>
    cases ys with
    | nil => rfl
    | cons y t =>
      have hcon := h y.1
      rw [findLink_cons, if_pos rfl] at hcon
      simp [findLink] at hcon
  | cons x xt ih =>
    cases ys with
    | nil =>
      have hcon := h x.1
      rw [findLink_cons, if_pos rfl] at hcon
      simp [findLink] at hcon
    | cons y yt =>
      have hxy : x.1 = y.1 := by
        by_contra hne
        have h1 := h x.1
        rw [findLink_cons, if_pos rfl, findLink_cons,
          if_neg fun he => hne he.symm] at h1
        have hm1 := findLink_mem h1.symm
        have hlt1 := sorted_head_lt hy _ hm1
        have h2 := h y.1
        rw [findLink_cons, if_neg hne, findLink_cons, if_pos rfl] at h2
        have hm2 := findLink_mem h2
        have hlt2 := sorted_head_lt hx _ hm2
        omega
      have hv : x.2 = y.2 := by
        have h1 := h x.1
        rw [findLink_cons, if_pos rfl, findLink_cons, if_pos hxy.symm] at h1
        injection h1
      have hxyeq : x = y := by
        cases x
        cases y
        cases hxy
        cases hv
        rfl
      subst hxyeq
      have htail : xt = yt := by
        apply ih (sorted_tail hx) (sorted_tail hy)
        intro k
        by_cases hk : k = x.1
        · subst hk
          rw [findLink_eq_none (sorted_head_lt hx),
            findLink_eq_none (sorted_head_lt hy)]
        · have hcon := h k
          rw [findLink_cons, if_neg fun he => hk he.symm, findLink_cons,
            if_neg fun he => hk he.symm] at hcon
          exact hcon
      rw [htail]

theorem insertLink_mem {p r : Nat × LinkBody} {l : List (Nat × LinkBody)}
    (h : r ∈ insertLink p l) : r = p ∨ r ∈ l := by
  induction l with
  | nil =>
    simp [insertLink] at h
    exact Or.inl h
  | cons q t ih =>
    unfold insertLink at h
    split_ifs at h with h1 h2
    · rcases List.mem_cons.mp h with h3 | h3
      · exact Or.inl h3
      · exact Or.inr h3
    · rcases List.mem_cons.mp h with h3 | h3
      · exact Or.inr (List.mem_cons.mpr (Or.inl h3))
      · rcases ih h3 with h4 | h4
        · exact Or.inl h4
        · exact Or.inr (List.mem_cons.mpr (Or.inr h4))
    · exact Or.inr h

theorem insertLink_sorted {p : Nat × LinkBody} {l : List (Nat × LinkBody)}
    (hs : keysSorted l) : keysSorted (insertLink p l) := by
  induction l with
  | nil =>
    unfold insertLink keysSorted
    simp
  | cons q t ih =>
    unfold insertLink
    split_ifs with h1 h2
    · refine List.pairwise_cons.mpr ⟨?_, hs⟩
      intro r hr
      rcases List.mem_cons.mp hr with h3 | h3
      · rw [h3]
        exact h1
      · have := sorted_head_lt hs r h3
        omega
    · refine List.pairwise_cons.mpr ⟨?_, ih (sorted_tail hs)⟩
      intro r hr
      rcases insertLink_mem hr with h3 | h3
      · rw [h3]
        exact h2
      · exact sorted_head_lt hs r h3
    · exact hs

theorem findLink_insertLink {p : Nat × LinkBody} {l : List (Nat × LinkBody)}
    (hs : keysSorted l) (k : Nat) :
    findLink (insertLink p l) k =
      optOr (findLink l k) (if p.1 = k then some p.2 else none) := by
  induction l with
  | nil => by_cases hk : p.1 = k <;> simp [insertLink, findLink_cons, findLink, optOr, hk]
  | cons q t ih =>
    rcases Nat.lt_trichotomy p.1 q.1 with h1 | h1 | h1
    · have hins : insertLink p (q :: t) = p :: q :: t := by
        rw [insertLink, if_pos h1]
      rw [hins, findLink_cons]
      by_cases hk : p.1 = k
      · rw [if_pos hk]
        have hnone : findLink (q :: t) k = none := by
          apply findLink_eq_none
          intro r hr
          rcases List.mem_cons.mp hr with h3 | h3
          · rw [h3]
            omega
          · have := sorted_head_lt hs r h3
            omega
        rw [hnone, if_pos hk]
        simp [optOr]
      · rw [if_neg hk, if_neg hk]
        cases hfind : findLink (q :: t) k <;> simp [optOr]
    · have hins : insertLink p (q :: t) = q :: t := by
        rw [insertLink, if_neg (by omega), if_neg (by omega)]
      rw [hins]
      by_cases hk : p.1 = k
      · have hq : findLink (q :: t) k = some q.2 := by
          rw [findLink_cons, if_pos (by omega)]
        rw [hq, if_pos hk]
        simp [optOr]
      · rw [if_neg hk]
        cases hfind : findLink (q :: t) k <;> simp [optOr]
    · have hins : insertLink p (q :: t) = q :: insertLink p t := by
        rw [insertLink, if_neg (by omega), if_pos h1]
      rw [hins, findLink_cons, findLink_cons]
      by_cases hk : q.1 = k
      · rw [if_pos hk, if_pos hk]
        simp [optOr]
      · rw [if_neg hk, if_neg hk]
        exact ih (sorted_tail hs)

theorem unionSorted_cons_right (xs : List (Nat × LinkBody)) (y : Nat × LinkBody)
    (ys : List (Nat × LinkBody)) :
    unionSorted xs (y :: ys) = unionSorted (insertLink y xs) ys := rfl

theorem unionSorted_sorted {xs : List (Nat × LinkBody)}
    (ys : List (Nat × LinkBody)) (hx : keysSorted xs) :
    keysSorted (unionSorted xs ys) := by
  induction ys generalizing xs with
  | nil => exact hx
  | cons y t ih => exact ih (insertLink_sorted hx)

theorem findLink_unionSorted {xs : List (Nat × LinkBody)}
    (ys : List (Nat × LinkBody)) (hx : keysSorted xs) (k : Nat) :
    findLink (unionSorted xs ys) k = optOr (findLink xs k) (findLink ys k) := by
  induction ys generalizing xs with
  | nil =>
    show findLink xs k = optOr (findLink xs k) none
    cases hfind : findLink xs k <;> simp [optOr]
  | cons y t ih =>
    rw [unionSorted_cons_right, ih (insertLink_sorted hx), findLink_insertLink hx,
      findLink_cons]
    by_cases hk : y.1 = k
    · rw [if_pos hk, if_pos hk]
      cases hfa : findLink xs k <;> simp [optOr]
    · rw [if_neg hk, if_neg hk]
      cases hfa : findLink xs k <;> simp [optOr]

theorem teamGraph_eq {x y : TeamGraph} (h1 : x.root = y.root)
    (h2 : x.head = y.head) (h3 : x.links = y.links) : x = y := by
  cases x
  cases y
  cases h1
  cases h2
  cases h3
  rfl

theorem unionSorted_self {a : TeamGraph} (hw : wfGraph a) :
    unionSorted a.links a.links = a.links := by
  apply findLink_ext (unionSorted_sorted _ hw.1) hw.1
  intro k
  rw [findLink_unionSorted _ hw.1]
  cases h : findLink a.links k <;> simp [optOr]

theorem mergeGraphs_self {a : TeamGraph} (hw : wfGraph a) : mergeGraphs a a = a := by
  have hl := unionSorted_self hw
  apply teamGraph_eq
  · rfl
  · show computeHead (unionSorted a.links a.links) = a.head
    rw [hl]
    exact hw.2.symm
  · exact hl

theorem unionSorted_comm {a b : TeamGraph} (hwa : wfGraph a) (hwb : wfGraph b)
    (hab : agreeLinks a b) :
    unionSorted a.links b.links = unionSorted b.links a.links := by
  apply findLink_ext (unionSorted_sorted _ hwa.1) (unionSorted_sorted _ hwb.1)
  intro k
  rw [findLink_unionSorted _ hwa.1, findLink_unionSorted _ hwb.1]
  cases hfa : findLink a.links k with
  | none => cases hfb : findLink b.links k <;> simp [optOr]
  | some v =>
    cases hfb : findLink b.links k with
    | none => simp [optOr]
    | some w =>
      have hveq : v = w := hab _ (findLink_mem hfa) _ (findLink_mem hfb) rfl
      rw [hveq]

theorem mergeGraphs_comm {a b : TeamGraph} (hwa : wfGraph a) (hwb : wfGraph b)
    (hab : agreeLinks a b) (hroot : a.root = b.root) :
    mergeGraphs a b = mergeGraphs b a := by
  have hl := unionSorted_comm hwa hwb hab
  apply teamGraph_eq
  · exact hroot
  · show computeHead (unionSorted a.links b.links) =
      computeHead (unionSorted b.links a.links)
    rw [hl]
  · exact hl

theorem unionSorted_assoc {a b c : TeamGraph} (hwa : wfGraph a) (hwb : wfGraph b) :
    unionSorted (unionSorted a.links b.links) c.links =
      unionSorted a.links (unionSorted b.links c.links) := by
  apply findLink_ext (unionSorted_sorted _ (unionSorted_sorted _ hwa.1))
    (unionSorted_sorted _ hwa.1)
  intro k
  have e1 : findLink (unionSorted (unionSorted a.links b.links) c.links) k =
      optOr (optOr (findLink a.links k) (findLink b.links k)) (findLink c.links k) := by
    rw [findLink_unionSorted _ (unionSorted_sorted _ hwa.1),
      findLink_unionSorted _ hwa.1]
  have e2 : findLink (unionSorted a.links (unionSorted b.links c.links)) k =
      optOr (findLink a.links k) (optOr (findLink b.links k) (findLink c.links k)) := by
    rw [findLink_unionSorted _ hwa.1, findLink_unionSorted _ hwb.1]
  rw [e1, e2]
  cases findLink a.links k <;> cases findLink b.links k <;> simp [optOr]

theorem mergeGraphs_assoc {a b c : TeamGraph} (hwa : wfGraph a) (hwb : wfGraph b) :
    mergeGraphs (mergeGraphs a b) c = mergeGraphs a (mergeGraphs b c) := by
  have hl := unionSorted_assoc (a := a) (b := b) (c := c) hwa hwb
  apply teamGraph_eq
  · rfl
  · show computeHead (unionSorted (unionSorted a.links b.links) c.links) =
      computeHead (unionSorted a.links (unionSorted b.links c.links))
    rw [hl]
  · exact hl

theorem lookupLink_mergeGraphs {a b : TeamGraph} (hwa : wfGraph a) (h : Nat) :
    lookupLink (mergeGraphs a b) h = optOr (lookupLink a h) (lookupLink b h) :=
  findLink_unionSorted _ hwa.1 h

theorem mem_computeHead {links : List (Nat × LinkBody)} {h : Nat} :
    h ∈ computeHead links ↔
      ((∃ l, findLink links h = some l) ∧ ∀ p ∈ links, h ∉ p.2.prev) := by
  unfold computeHead
  rw [List.mem_filter]
  have hfind : (∃ l, findLink links h = some l) ↔ h ∈ links.map Prod.fst := by
    unfold findLink
    cases hf : links.find? (fun p => p.1 = h) with
    | none =>
      simp only [List.mem_map]
      constructor
      · rintro ⟨l, hl⟩
        cases hl
      · rintro ⟨p, hp, hph⟩
        have := List.find?_eq_none.mp hf p hp
        simp [hph] at this
    | some p =>
      have hpred := List.find?_some hf
      have hmem := List.mem_of_find?_eq_some hf
      simp only [decide_eq_true_eq] at hpred
      simp only [List.mem_map]
      exact ⟨fun _ => ⟨p, hmem, hpred⟩, fun _ => ⟨p.2, rfl⟩⟩
  have hchild : (!hasChild links h) = true ↔ ∀ p ∈ links, h ∉ p.2.prev := by
    unfold hasChild
    simp [List.any_eq_true]
  rw [hfind.symm] at *
  constructor
  · rintro ⟨h1, h2⟩
    exact ⟨hfind.mpr h1, hchild.mp h2⟩
  · rintro ⟨h1, h2⟩
    exact ⟨hfind.mp h1, hchild.mpr h2⟩

/-- C3: the CRDT laws of graph merge.  For well-formed graphs over the same
root whose stores agree on shared hashes (content-addressed equality):
merge is idempotent; merge is commutative (hence so is the resolved state);
merge is associative; the merged store is the union of the two link sets
with duplicate hashes discarded (lookup is the left-biased union of
lookups); and the merged head is exactly the set of hashes with no child
across the union. -/
theorem merge_crdt_laws (a b c : TeamGraph) (hwa : wfGraph a) (hwb : wfGraph b)
    (hab : agreeLinks a b) (hroot : a.root = b.root) :
    mergeGraphs a a = a ∧
    mergeGraphs a b = mergeGraphs b a ∧
    resolvedState (mergeGraphs a b) = resolvedState (mergeGraphs b a) ∧
    mergeGraphs (mergeGraphs a b) c = mergeGraphs a (mergeGraphs b c) ∧
    (∀ h, lookupLink (mergeGraphs a b) h = optOr (lookupLink a h) (lookupLink b h)) ∧
    (∀ h, h ∈ (mergeGraphs a b).head ↔
      ((∃ l, lookupLink (mergeGraphs a b) h = some l) ∧
        ∀ p ∈ (mergeGraphs a b).links, h ∉ p.2.prev)) := by
  have hcomm := mergeGraphs_comm hwa hwb hab hroot
  exact ⟨mergeGraphs_self hwa, hcomm, by rw [hcomm], mergeGraphs_assoc hwa hwb,
    fun h => lookupLink_mergeGraphs hwa h, fun h => mem_computeHead⟩

/-- C3 witness: instantiates the merge laws on the two concrete branch
graphs of the concurrency scenario (and the fork graph as third operand). -/
theorem merge_crdt_laws_witness :
    wfGraph branchA ∧ wfGraph branchB ∧ agreeLinks branchA branchB ∧
    mergeGraphs branchA branchA = branchA ∧
    mergeGraphs branchA branchB = mergeGraphs branchB branchA := by
  have h := merge_crdt_laws branchA branchB forkGraph
    (by constructor <;> decide) (by constructor <;> decide) (by decide) rfl
  exact ⟨⟨by decide, by decide⟩, ⟨by decide, by decide⟩, by decide, h.1, h.2.1⟩
